import Mathlib

/-!
# Verification of the ChimeIn moderation pipeline

A shallow embedding of the moderation and pending-post lifecycle logic of
`src/server/controllers/post.controller.js`, together with proofs of the
specification's claims about it.

Conventions of the embedding:
* JavaScript strings are Lean `String`s (a `String` here is its list of
  characters); `undefined`/absent strings are `Option String` with `none`.
* The regular-expression engine and the external Perspective API call are
  modelled as oracle parameters (`RegexOracle`, `FetchResult`): the code under
  verification only forwards a pattern / request to them and branches on the
  outcome, so their internals are outside the program being embedded.
* Numeric attribute scores are rationals (`ℚ`); the decimal rendering used in
  reason strings abstracts from IEEE-754 binary representation.
* Every `await`ed Mongo operation is an atomic step on an explicit `Store`
  value; handlers are state transformers that additionally emit a list of
  events (`Ev`) recording the externally visible operations they performed.
* Exceptions do not escape the embedded functions: every `throw` site of the
  source is caught locally by the source itself, which the embedding reflects
  by returning the corresponding caught-branch value (the functions are total).
-/

/-! ## String helpers -/

/-- Does `hay` start with `needle`? (character-list version of
`String.prototype.startsWith` restricted to what the embedding needs). -/
def lstStarts : List Char → List Char → Bool
  | [], _ => true
  | _ :: _, [] => false
  | c :: cs, d :: ds => c == d && lstStarts cs ds

/-- Does `hay` contain `needle` as a contiguous substring?
(JavaScript `String.prototype.includes`.) -/
def lstHasSub (needle : List Char) : List Char → Bool
  | [] => needle.isEmpty
  | d :: rest => lstStarts needle (d :: rest) || lstHasSub needle rest

/-- `hay.includes(needle)` on strings. -/
def containsStr (hay needle : String) : Bool :=
  lstHasSub needle.data hay.data

/-- JavaScript `toLowerCase()` (ASCII case folding, as `Char.toLower`). -/
def lowerStr (s : String) : String :=
  ⟨s.data.map Char.toLower⟩

/-- A JavaScript string is falsy exactly when it is empty. -/
def strFalsy (s : String) : Bool :=
  s.data.isEmpty

/-! ## RuleMatcher (`matchesRuleBased`, post.controller.js lines 32–50) -/

/-- The regular-expression engine: `(pattern, flags, text) ↦ ok verdict`, or
`error msg` when `new RegExp(pattern, flags)` throws on a malformed pattern. -/
abbrev RegexOracle := String → String → String → Except String Bool

/-- `r.startsWith("/") && r.endsWith("/")`: the rule is regex-shaped. -/
def regexShaped (r : String) : Bool :=
  r.data.head? == some '/' && r.data.getLast? == some '/'

/-- `r.slice(1, -1)`: drop the delimiting slashes. -/
def stripSlashes (r : String) : String :=
  ⟨(r.data.drop 1).dropLast⟩

/-- The warning logged when a rule's pattern fails to compile
(`"Invalid moderation rule skipped:"`, rule, error message). -/
def ruleWarning (r msg : String) : String :=
  "Invalid moderation rule skipped: " ++ r ++ " " ++ msg

/-- Result of a rule scan, instrumented with the list of rules actually
evaluated (in order) and the warnings logged for skipped rules. -/
structure RuleScan where
  result : Bool
  evaluated : List String
  warnings : List String
deriving DecidableEq

/-- The `for (const r of rules)` loop of `matchesRuleBased`: regex-shaped rules
are compiled with flag `"i"` and tested against the original text; other rules
are tested by lowercase substring containment; a rule whose compilation throws
is logged and skipped; the loop returns `true` at the first matching rule. -/
def scanRules (retest : RegexOracle) (t lower : String) : List String → RuleScan
  | [] => ⟨false, [], []⟩
  | r :: rest =>
    if regexShaped r then
      match retest (stripSlashes r) "i" t with
      | Except.ok true => ⟨true, [r], []⟩
      | Except.ok false =>
        let s := scanRules retest t lower rest
        ⟨s.result, r :: s.evaluated, s.warnings⟩
      | Except.error e =>
        let s := scanRules retest t lower rest
        ⟨s.result, r :: s.evaluated, ruleWarning r e :: s.warnings⟩
    else
      if containsStr lower (lowerStr r) then ⟨true, [r], []⟩
      else
        let s := scanRules retest t lower rest
        ⟨s.result, r :: s.evaluated, s.warnings⟩

/-- `matchesRuleBased(text)`, instrumented: `if (!text) return false` guards a
missing or empty text; otherwise the rule list is scanned against the text and
its lowercase form. -/
def matchesRuleBasedT (retest : RegexOracle) (rules : List String)
    (text : Option String) : RuleScan :=
  match text with
  | none => ⟨false, [], []⟩
  | some t => if strFalsy t then ⟨false, [], []⟩ else scanRules retest t (lowerStr t) rules

/-- `matchesRuleBased(text)` of post.controller.js (the Boolean verdict). -/
def matchesRuleBased (retest : RegexOracle) (rules : List String)
    (text : Option String) : Bool :=
  (matchesRuleBasedT retest rules text).result

/-- The contribution of a single rule to the scan: regex-shaped rules delegate
to the engine with flag `"i"` (a thrown compilation error counts as no match);
literal rules use case-folded containment. -/
def ruleOutcome (retest : RegexOracle) (t lower r : String) : Bool :=
  if regexShaped r then
    match retest (stripSlashes r) "i" t with
    | Except.ok b => b
    | Except.error _ => false
  else containsStr lower (lowerStr r)

/-! ## ToxicityScorer (`aiModerationCheck`, post.controller.js lines 57–112) -/

/-- The two environment flags gating the Perspective API call. -/
structure EnvConfig where
  usePerspectiveApi : Option String
  perspectiveApiKey : Option String
deriving DecidableEq

/-- Truthiness of an optional environment string (absent or empty is falsy). -/
def envTruthy : Option String → Bool
  | none => false
  | some s => !strFalsy s

/-- `process.env.USE_PERSPECTIVE_API === "true" && process.env.PERSPECTIVE_API_KEY`. -/
def scoringEnabled (cfg : EnvConfig) : Bool :=
  cfg.usePerspectiveApi == some "true" && envTruthy cfg.perspectiveApiKey

/-- The service's JSON body: `attributeScores[ATTR].summaryScore.value`, as an
association list in the enumeration order of `Object.keys`; a `none` score
models an absent/falsy `value` (defaulted to 0 by `|| 0`). -/
structure ApiResponse where
  attributeScores : List (String × Option ℚ)
deriving DecidableEq

/-- Outcome of the `fetch` call: the fetch (or `resp.json()`) throws / times
out, the response has a non-ok status, or it succeeds with a JSON body. -/
inductive FetchResult where
  | throwErr
  | notOk (status : Nat)
  | ok (body : ApiResponse)
deriving DecidableEq

/-- The hardcoded per-attribute `thresholds` table. -/
def thresholds : List (String × ℚ) :=
  [("TOXICITY", 0.85), ("INSULT", 0.85), ("THREAT", 0.7),
   ("IDENTITY_ATTACK", 0.8), ("SEXUALLY_EXPLICIT", 0.9)]

/-- `thresholds[attr] || 0.9`: the configured threshold, falling back to 0.9
when the attribute is unlisted (or its entry is falsy). -/
def thresholdFor (attr : String) : ℚ :=
  match thresholds.lookup attr with
  | some t => if t = 0 then 0.9 else t
  | none => 0.9

/-- Render a two-decimal digit pair with a leading zero. -/
def twoDigits (n : Nat) : String :=
  (if n < 100 then (if n < 10 then "0" else "") ++ toString n else toString n)

/-- JavaScript `score.toFixed(2)` for a score in `[0, 1]`: round to hundredths
and always print two fractional digits. -/
def toFixed2 (q : ℚ) : String :=
  toString ((round (q * 100)).toNat / 100) ++ "." ++ twoDigits ((round (q * 100)).toNat % 100)

/-- JavaScript default number-to-string rendering, for the threshold constants
(all multiples of 1/100): trailing fractional zeros are not printed. -/
def numToStr (q : ℚ) : String :=
  if round (q * 100) % 100 = 0 then toString ((round (q * 100)).toNat / 100)
  else if round (q * 100) % 10 = 0 then
    toString ((round (q * 100)).toNat / 100) ++ "." ++ toString (((round (q * 100)).toNat / 10) % 10)
  else
    toString ((round (q * 100)).toNat / 100) ++ "." ++ twoDigits ((round (q * 100)).toNat % 100)

/-- The moderation verdict `{flagged, reason, details}`. -/
structure Verdict where
  flagged : Bool
  reason : Option String
  details : Option ApiResponse := none
deriving DecidableEq

/-- The reason string `` `${attr} score ${score.toFixed(2)} >= ${threshold}` ``. -/
def breachReason (attr : String) (score : ℚ) : String :=
  attr ++ " score " ++ toFixed2 score ++ " >= " ++ numToStr (thresholdFor attr)

/-- The `for (const attr of Object.keys(json.attributeScores))` loop: return a
flagged verdict at the first attribute whose score reaches its threshold,
otherwise a non-flagged verdict that still carries the raw payload. -/
def scanScores (json : ApiResponse) : List (String × Option ℚ) → Verdict
  | [] => ⟨false, none, some json⟩
  | (attr, v) :: rest =>
    if thresholdFor attr ≤ v.getD 0 then
      ⟨true, some (breachReason attr (v.getD 0)), some json⟩
    else scanScores json rest

/-- `aiModerationCheck(text)` of post.controller.js: empty text, disabled
configuration, a thrown/timed-out call and a non-ok response all yield the
caught-branch verdict `{flagged: false, reason: null}`; a successful response
is scanned attribute by attribute. -/
def aiModerationCheck (cfg : EnvConfig) (fr : FetchResult) (text : String) : Verdict :=
  if strFalsy text then ⟨false, none, none⟩
  else if scoringEnabled cfg then
    match fr with
    | FetchResult.throwErr => ⟨false, none, none⟩
    | FetchResult.notOk _ => ⟨false, none, none⟩
    | FetchResult.ok json => scanScores json json.attributeScores
  else ⟨false, none, none⟩

/-! ## Basic lemmas about the string helpers and the rule scan -/

theorem lstStarts_append (s b : List Char) : lstStarts s (s ++ b) = true := by
  induction s with
  | nil => rfl
  | cons c cs ih => simp [lstStarts, ih]

theorem lstHasSub_of_lstStarts (m h : List Char) (hs : lstStarts m h = true) :
    lstHasSub m h = true := by
  cases h with
  | nil =>
    cases m with
    | nil => rfl
    | cons c cs => simp [lstStarts] at hs
  | cons d ds => simp [lstHasSub, hs]

theorem lstHasSub_append (a m b : List Char) : lstHasSub m (a ++ m ++ b) = true := by
  induction a with
  | nil =>
    simp only [List.nil_append]
    exact lstHasSub_of_lstStarts _ _ (lstStarts_append m b)
  | cons x xs ih =>
    simp only [List.cons_append, lstHasSub, Bool.or_eq_true]
    right
    simpa using ih

theorem scanRules_result_eq_any (retest : RegexOracle) (t lower : String)
    (rules : List String) :
    (scanRules retest t lower rules).result = rules.any (ruleOutcome retest t lower) := by
  induction rules with
  | nil => rfl
  | cons r rest ih =>
    simp only [scanRules, ruleOutcome, List.any_cons]
    by_cases hshape : regexShaped r
    · simp only [hshape, if_true]
      cases hcall : retest (stripSlashes r) "i" t with
      | ok b => cases b <;> simp [hcall, ih]
      | error e => simp [hcall, ih]
    · simp only [hshape]
      by_cases hc : containsStr lower (lowerStr r)
      · simp [hc]
      · simp [hc, ih]

theorem scanRules_no_match_cons (retest : RegexOracle) (t lower : String)
    (p : String) (rest : List String)
    (hp : ruleOutcome retest t lower p = false) :
    (scanRules retest t lower (p :: rest)).result = (scanRules retest t lower rest).result ∧
    (scanRules retest t lower (p :: rest)).evaluated = p :: (scanRules retest t lower rest).evaluated ∧
    ∀ w ∈ (scanRules retest t lower rest).warnings,
      w ∈ (scanRules retest t lower (p :: rest)).warnings := by
  by_cases hshape : regexShaped p
  · have hp' := hp
    simp only [ruleOutcome, hshape, if_true] at hp'
    cases hcall : retest (stripSlashes p) "i" t with
    | ok b =>
      rw [hcall] at hp'
      cases b with
      | true => simp at hp'
      | false =>
        have hred : scanRules retest t lower (p :: rest)
            = ⟨(scanRules retest t lower rest).result,
               p :: (scanRules retest t lower rest).evaluated,
               (scanRules retest t lower rest).warnings⟩ := by
          simp [scanRules, hshape, hcall]
        rw [hred]
        exact ⟨rfl, rfl, fun w hw => hw⟩
    | error e =>
      have hred : scanRules retest t lower (p :: rest)
          = ⟨(scanRules retest t lower rest).result,
             p :: (scanRules retest t lower rest).evaluated,
             ruleWarning p e :: (scanRules retest t lower rest).warnings⟩ := by
        simp [scanRules, hshape, hcall]
      rw [hred]
      exact ⟨rfl, rfl, fun w hw => List.mem_cons_of_mem _ hw⟩
  · have hp' : containsStr lower (lowerStr p) = false := by
      simpa [ruleOutcome, hshape] using hp
    have hred : scanRules retest t lower (p :: rest)
        = ⟨(scanRules retest t lower rest).result,
           p :: (scanRules retest t lower rest).evaluated,
           (scanRules retest t lower rest).warnings⟩ := by
      simp [scanRules, hshape, hp']
    rw [hred]
    exact ⟨rfl, rfl, fun w hw => hw⟩

theorem scanRules_first_match (retest : RegexOracle) (t lower : String)
    (pre post : List String) (r : String)
    (hpre : ∀ p ∈ pre, ruleOutcome retest t lower p = false)
    (hr : ruleOutcome retest t lower r = true) :
    (scanRules retest t lower (pre ++ r :: post)).result = true ∧
    (scanRules retest t lower (pre ++ r :: post)).evaluated = pre ++ [r] := by
  induction pre with
  | nil =>
    simp only [List.nil_append]
    by_cases hshape : regexShaped r
    · have hr' := hr
      simp only [ruleOutcome, hshape, if_true] at hr'
      cases hcall : retest (stripSlashes r) "i" t with
      | ok b =>
        rw [hcall] at hr'
        cases b with
        | false => simp at hr'
        | true => simp [scanRules, hshape, hcall]
      | error e =>
        rw [hcall] at hr'
        simp at hr'
    · have hr' : containsStr lower (lowerStr r) = true := by
        simpa [ruleOutcome, hshape] using hr
      simp [scanRules, hshape, hr']
  | cons p ps ih =>
    have hp := hpre p (List.mem_cons_self p ps)
    have hrest : ∀ q ∈ ps, ruleOutcome retest t lower q = false :=
      fun q hq => hpre q (List.mem_cons_of_mem _ hq)
    obtain ⟨h1, h2, _⟩ := scanRules_no_match_cons retest t lower p (ps ++ r :: post) hp
    obtain ⟨ih1, ih2⟩ := ih hrest
    refine ⟨?_, ?_⟩
    · rw [List.cons_append, h1]
      exact ih1
    · rw [List.cons_append, h2, ih2]
      simp

theorem scanRules_warning_mem (retest : RegexOracle) (t lower : String)
    (pre post : List String) (bad e : String)
    (hshape : regexShaped bad = true)
    (hcall : retest (stripSlashes bad) "i" t = Except.error e)
    (hpre : ∀ p ∈ pre, ruleOutcome retest t lower p = false) :
    ruleWarning bad e ∈ (scanRules retest t lower (pre ++ bad :: post)).warnings := by
  induction pre with
  | nil => simp [scanRules, hshape, hcall]
  | cons p ps ih =>
    have hp := hpre p (List.mem_cons_self p ps)
    obtain ⟨_, _, hmem⟩ := scanRules_no_match_cons retest t lower p (ps ++ bad :: post) hp
    exact hmem _ (ih fun q hq => hpre q (List.mem_cons_of_mem _ hq))

theorem strFalsy_false_of_ne (t : String) (ht : t.data ≠ []) : strFalsy t = false := by
  cases h : t.data with
  | nil => exact absurd h ht
  | cons c cs => simp [strFalsy, h]

theorem matchesRuleBasedT_some (retest : RegexOracle) (rules : List String)
    (t : String) (ht : t.data ≠ []) :
    matchesRuleBasedT retest rules (some t) = scanRules retest t (lowerStr t) rules := by
  simp [matchesRuleBasedT, strFalsy_false_of_ne t ht]

theorem matchesRuleBased_eq_any (retest : RegexOracle) (rules : List String)
    (t : String) (ht : t.data ≠ []) :
    matchesRuleBased retest rules (some t)
      = rules.any (ruleOutcome retest t (lowerStr t)) := by
  rw [matchesRuleBased, matchesRuleBasedT_some retest rules t ht,
    scanRules_result_eq_any]

/-- C5: `matchesRuleBased` (i) flags any text containing a configured literal
rule up to letter case, (ii) tests `/…/`-shaped rules through the
case-insensitive (`"i"`-flagged) regular-expression engine on the
delimiter-stripped pattern, (iii) skips a rule whose pattern fails to compile
with a logged warning and without aborting the scan, (iv) returns true at the
first matching rule, evaluating no later rule, and (v) returns false when no
rule matches or the text is empty or absent. -/
theorem C5_rule_matcher (retest : RegexOracle) :
    (∀ (rules : List String) (t r : String) (l mid rr : List Char),
        r ∈ rules → regexShaped r = false → t.data = l ++ mid ++ rr →
        mid.map Char.toLower = r.data.map Char.toLower → t.data ≠ [] →
        matchesRuleBased retest rules (some t) = true) ∧
    (∀ (rules : List String) (t r : String),
        r ∈ rules → regexShaped r = true →
        retest (stripSlashes r) "i" t = Except.ok true → t.data ≠ [] →
        matchesRuleBased retest rules (some t) = true) ∧
    (∀ (pre post : List String) (bad t e : String),
        regexShaped bad = true →
        retest (stripSlashes bad) "i" t = Except.error e →
        matchesRuleBased retest (pre ++ bad :: post) (some t)
          = matchesRuleBased retest (pre ++ post) (some t) ∧
        (t.data ≠ [] →
          (∀ p ∈ pre, ruleOutcome retest t (lowerStr t) p = false) →
          ruleWarning bad e ∈
            (matchesRuleBasedT retest (pre ++ bad :: post) (some t)).warnings)) ∧
    (∀ (pre post : List String) (r t : String),
        t.data ≠ [] →
        (∀ p ∈ pre, ruleOutcome retest t (lowerStr t) p = false) →
        ruleOutcome retest t (lowerStr t) r = true →
        (matchesRuleBasedT retest (pre ++ r :: post) (some t)).result = true ∧
        (matchesRuleBasedT retest (pre ++ r :: post) (some t)).evaluated
          = pre ++ [r]) ∧
    (∀ rules : List String,
        matchesRuleBased retest rules none = false ∧
        matchesRuleBased retest rules (some "") = false) ∧
    (∀ (rules : List String) (t : String),
        t.data ≠ [] →
        (∀ p ∈ rules, ruleOutcome retest t (lowerStr t) p = false) →
        matchesRuleBased retest rules (some t) = false) := by
  refine ⟨?_, ?_, ?_, ?_, ?_, ?_⟩
  · intro rules t r l mid rr hr hshape hsplit hmid ht
    have houtcome : ruleOutcome retest t (lowerStr t) r = true := by
      have hdata : (lowerStr t).data
          = l.map Char.toLower ++ (lowerStr r).data ++ rr.map Char.toLower := by
        simp [lowerStr, hsplit, hmid]
      simp only [ruleOutcome, hshape, Bool.false_eq_true, if_false, containsStr, hdata]
      exact lstHasSub_append _ _ _
    rw [matchesRuleBased_eq_any retest rules t ht]
    exact List.any_eq_true.mpr ⟨r, hr, houtcome⟩
  · intro rules t r hr hshape hcall ht
    have houtcome : ruleOutcome retest t (lowerStr t) r = true := by
      simp [ruleOutcome, hshape, hcall]
    rw [matchesRuleBased_eq_any retest rules t ht]
    exact List.any_eq_true.mpr ⟨r, hr, houtcome⟩
  · intro pre post bad t e hshape hcall
    have hbad : ruleOutcome retest t (lowerStr t) bad = false := by
      simp [ruleOutcome, hshape, hcall]
    constructor
    · by_cases ht : t.data = []
      · have : t = "" := by
          cases t
          simp_all
        subst this
        rfl
      · rw [matchesRuleBased_eq_any retest _ t ht, matchesRuleBased_eq_any retest _ t ht]
        simp [hbad]
    · intro ht hpre
      rw [matchesRuleBasedT_some retest _ t ht]
      exact scanRules_warning_mem retest t (lowerStr t) pre post bad e hshape hcall hpre
  · intro pre post r t ht hpre hr
    rw [matchesRuleBasedT_some retest _ t ht]
    exact scanRules_first_match retest t (lowerStr t) pre post r hpre hr
  · intro rules
    exact ⟨rfl, rfl⟩
  · intro rules t ht hall
    rw [matchesRuleBased_eq_any retest rules t ht]
    simp only [List.any_eq_false]
    intro p hp
    simp [hall p hp]

/-- Witness for C5: with rules `["spam"]`, the text `"This is SPAM content"`
(which contains the literal rule only up to case) is flagged. -/
theorem C5_rule_matcher_witness :
    matchesRuleBased (fun _ _ _ => Except.ok false) ["spam"] (some "This is SPAM content") = true :=
  (C5_rule_matcher (fun _ _ _ => Except.ok false)).1 ["spam"] "This is SPAM content" "spam"
    "This is ".data "SPAM".data " content".data
    (by simp) (by decide) (by decide) (by decide) (by decide)

/-! ## Claims about the scorer (C2, C3) -/

theorem scoringEnabled_false_of_flag (cfg : EnvConfig)
    (h : cfg.usePerspectiveApi ≠ some "true") : scoringEnabled cfg = false := by
  simp [scoringEnabled, h]

theorem scoringEnabled_false_of_key (cfg : EnvConfig)
    (h : cfg.perspectiveApiKey = none) : scoringEnabled cfg = false := by
  simp [scoringEnabled, h, envTruthy]

theorem aiModerationCheck_disabled (cfg : EnvConfig) (fr : FetchResult)
    (text : String) (h : scoringEnabled cfg = false) :
    aiModerationCheck cfg fr text = ⟨false, none, none⟩ := by
  unfold aiModerationCheck
  by_cases he : strFalsy text <;> simp [he, h]

/-- C2: `aiModerationCheck` fails open — whenever scoring is disabled by
configuration (enable flag not `"true"` or API key absent), or the text is
empty, or the external call throws/times out, or the response has a non-ok
status, the verdict is the non-flagged `{flagged: false, reason: null}`; no
exception escapes (the embedding is a total function whose value on every
throwing path of the source is the caught-branch verdict). -/
theorem C2_fail_open (cfg : EnvConfig) (fr : FetchResult) (text : String)
    (h : cfg.usePerspectiveApi ≠ some "true" ∨ cfg.perspectiveApiKey = none ∨
         text.data = [] ∨ fr = FetchResult.throwErr ∨
         ∃ s, fr = FetchResult.notOk s) :
    aiModerationCheck cfg fr text = ⟨false, none, none⟩ := by
  rcases h with h | h | h | h | ⟨s, h⟩
  · exact aiModerationCheck_disabled cfg fr text (scoringEnabled_false_of_flag cfg h)
  · exact aiModerationCheck_disabled cfg fr text (scoringEnabled_false_of_key cfg h)
  · simp [aiModerationCheck, strFalsy, h]
  · subst h
    unfold aiModerationCheck
    by_cases h1 : strFalsy text <;> by_cases h2 : scoringEnabled cfg <;> simp [h1, h2]
  · subst h
    unfold aiModerationCheck
    by_cases h1 : strFalsy text <;> by_cases h2 : scoringEnabled cfg <;> simp [h1, h2]

/-- Witness for C2: scorer enabled but the service call throws — the verdict
is non-flagged. -/
theorem C2_fail_open_witness :
    aiModerationCheck ⟨some "true", some "key"⟩ FetchResult.throwErr "some text"
      = ⟨false, none, none⟩ :=
  C2_fail_open _ _ _ (Or.inr (Or.inr (Or.inr (Or.inl rfl))))

theorem strData_append (a b : String) : (a ++ b).data = a.data ++ b.data := by
  cases a
  cases b
  rfl

theorem containsStr_of_data (hay m : String) (a b : List Char)
    (h : hay.data = a ++ m.data ++ b) : containsStr hay m = true := by
  unfold containsStr
  rw [h]
  exact lstHasSub_append a m.data b

theorem scanScores_no_breach (json : ApiResponse) (l : List (String × Option ℚ))
    (h : ∀ p ∈ l, ¬ (thresholdFor p.1 ≤ p.2.getD 0)) :
    scanScores json l = ⟨false, none, some json⟩ := by
  induction l with
  | nil => rfl
  | cons p rest ih =>
    obtain ⟨attr, v⟩ := p
    have hnb := h _ (List.mem_cons_self _ _)
    simp [scanScores, hnb, ih fun q hq => h q (List.mem_cons_of_mem _ hq)]

theorem scanScores_first_breach (json : ApiResponse)
    (pre : List (String × Option ℚ)) (attr : String) (v : Option ℚ)
    (rest : List (String × Option ℚ))
    (hpre : ∀ p ∈ pre, ¬ (thresholdFor p.1 ≤ p.2.getD 0))
    (hb : thresholdFor attr ≤ v.getD 0) :
    scanScores json (pre ++ (attr, v) :: rest)
      = ⟨true, some (breachReason attr (v.getD 0)), some json⟩ := by
  induction pre with
  | nil => simp [scanScores, hb]
  | cons p ps ih =>
    obtain ⟨a2, v2⟩ := p
    have h2 := hpre _ (List.mem_cons_self _ _)
    simp [scanScores, h2, ih fun q hq => hpre q (List.mem_cons_of_mem _ hq)]

theorem aiModerationCheck_ok (cfg : EnvConfig) (json : ApiResponse) (text : String)
    (henabled : scoringEnabled cfg = true) (htext : text.data ≠ []) :
    aiModerationCheck cfg (FetchResult.ok json) text
      = scanScores json json.attributeScores := by
  simp [aiModerationCheck, strFalsy_false_of_ne text htext, henabled]

theorem breachReason_data (attr : String) (s : ℚ) :
    (breachReason attr s).data
      = attr.data ++ ((" score ").data ++ ((toFixed2 s).data
          ++ ((" >= ").data ++ (numToStr (thresholdFor attr)).data))) := by
  simp [breachReason, strData_append]

/-- C3: when scoring is enabled and the service responds successfully, the
attribute scores are scanned in order against their configured thresholds
(0.9 when unlisted, via `thresholdFor`): the first attribute whose score
reaches its threshold yields a flagged verdict whose reason string contains
the attribute name, the score rendered to two decimal places and the
threshold; when no attribute reaches its threshold the verdict is non-flagged
and carries the full raw response as `details`. -/
theorem C3_threshold_scan (cfg : EnvConfig) (json : ApiResponse) (text : String)
    (henabled : scoringEnabled cfg = true) (htext : text.data ≠ []) :
    (∀ (pre : List (String × Option ℚ)) (attr : String) (v : Option ℚ)
        (rest : List (String × Option ℚ)),
        json.attributeScores = pre ++ (attr, v) :: rest →
        (∀ p ∈ pre, ¬ (thresholdFor p.1 ≤ p.2.getD 0)) →
        thresholdFor attr ≤ v.getD 0 →
        aiModerationCheck cfg (FetchResult.ok json) text
          = ⟨true, some (breachReason attr (v.getD 0)), some json⟩ ∧
        containsStr (breachReason attr (v.getD 0)) attr = true ∧
        containsStr (breachReason attr (v.getD 0)) (toFixed2 (v.getD 0)) = true ∧
        containsStr (breachReason attr (v.getD 0)) (numToStr (thresholdFor attr)) = true) ∧
    ((∀ p ∈ json.attributeScores, ¬ (thresholdFor p.1 ≤ p.2.getD 0)) →
        aiModerationCheck cfg (FetchResult.ok json) text = ⟨false, none, some json⟩) := by
  constructor
  · intro pre attr v rest hsplit hpre hb
    refine ⟨?_, ?_, ?_, ?_⟩
    · rw [aiModerationCheck_ok cfg json text henabled htext, hsplit]
      exact scanScores_first_breach json pre attr v rest hpre hb
    · refine containsStr_of_data _ _ []
        ((" score ").data ++ ((toFixed2 (v.getD 0)).data
          ++ ((" >= ").data ++ (numToStr (thresholdFor attr)).data))) ?_
      simp [breachReason_data]
    · refine containsStr_of_data _ _ (attr.data ++ (" score ").data)
        ((" >= ").data ++ (numToStr (thresholdFor attr)).data) ?_
      simp [breachReason_data, List.append_assoc]
    · refine containsStr_of_data _ _
        (attr.data ++ ((" score ").data ++ ((toFixed2 (v.getD 0)).data ++ (" >= ").data))) [] ?_
      simp [breachReason_data, List.append_assoc]
  · intro hall
    rw [aiModerationCheck_ok cfg json text henabled htext]
    exact scanScores_no_breach json json.attributeScores hall

/-- Witness for C3 (the spec's scenario): TOXICITY scored 0.90 against its
configured 0.85 threshold — flagged, and the reason mentions `TOXICITY` and
`0.90`. -/
theorem C3_threshold_scan_witness :
    aiModerationCheck ⟨some "true", some "key"⟩
        (FetchResult.ok ⟨[("TOXICITY", some 0.9)]⟩) "borderline text"
      = ⟨true, some (breachReason "TOXICITY" 0.9), some ⟨[("TOXICITY", some 0.9)]⟩⟩ ∧
    containsStr (breachReason "TOXICITY" 0.9) "TOXICITY" = true ∧
    containsStr (breachReason "TOXICITY" 0.9) (toFixed2 0.9) = true := by
  have h := (C3_threshold_scan ⟨some "true", some "key"⟩
      ⟨[("TOXICITY", some 0.9)]⟩ "borderline text" (by decide) (by decide)).1
    [] "TOXICITY" (some 0.9) [] rfl (by intro p hp; simp at hp)
    (by norm_num [thresholdFor, thresholds])
  exact ⟨h.1, h.2.1, h.2.2.1⟩

/-! ## Data model and handler state -/

/-- A community document (`_id`, `members`). -/
structure Community where
  id : Nat
  members : List Nat
deriving DecidableEq

/-- A live post document. -/
structure Post where
  id : Nat
  user : Nat
  community : Nat
  content : Option String
  fileUrl : Option String
  fileType : Option String
  comments : List Nat
deriving DecidableEq

/-- A comment document. -/
structure CommentDoc where
  id : Nat
  user : Nat
  post : Nat
  content : Option String
deriving DecidableEq

/-- A pending-post document awaiting confirmation. -/
structure PendingPostDoc where
  confirmationToken : String
  user : Nat
  community : Nat
  content : Option String
  fileUrl : Option String
  fileType : Option String
  status : String
  createdAt : Int
deriving DecidableEq

/-- A user document (only the role is consulted by this controller). -/
structure UserDoc where
  id : Nat
  role : String
deriving DecidableEq

/-- The document store consumed by the controller, with fresh-id counters for
the two collections the handlers insert into. -/
structure Store where
  communities : List Community
  users : List UserDoc
  posts : List Post
  comments : List CommentDoc
  pendingPosts : List PendingPostDoc
  nextPostId : Nat
  nextCommentId : Nat
deriving DecidableEq

/-- Externally visible operations a handler performs, in order. -/
inductive Ev where
  | ruleCheck (text : Option String)
  | scorerCall (text : String)
  | unlinkFile (path : String)
  | logError (msg : String)
  | pullCommentRef (postId commentId : Nat)
  | delComment (commentId : Nat)
  | delPending (token : String)
  | insertPost (postId : Nat)
  | insertComment (commentId : Nat)
deriving DecidableEq

/-- An HTTP response: status, JSON `message`, optional `reason` field, and the
returned post payload when the handler responds with a document. -/
structure HttpResp where
  status : Nat
  message : String
  reason : Option String
  post : Option Post
deriving DecidableEq

/-- Update the first list element satisfying `pred` (Mongo `findOneAndUpdate` /
`findByIdAndUpdate` touch a single document). -/
def updateFirst {α : Type} (pred : α → Bool) (f : α → α) : List α → List α
  | [] => []
  | x :: xs => if pred x then f x :: xs else x :: updateFirst pred f xs

/-- Remove the first list element satisfying `pred` (Mongo `findOneAndDelete` /
`doc.remove()` delete a single document). -/
def removeFirst {α : Type} (pred : α → Bool) : List α → List α
  | [] => []
  | x :: xs => if pred x then xs else x :: removeFirst pred xs

/-- JavaScript `x ? x : null` on an optional string. -/
def truthyOrNull (o : Option String) : Option String :=
  match o with
  | some s => if strFalsy s then none else some s
  | none => none

/-- JavaScript `x || d` on an optional string. -/
def jsOrStr (o : Option String) (d : String) : String :=
  match o with
  | some s => if strFalsy s then d else s
  | none => d

/-! ## File rollback (`safeUnlink`, lines 21–26) -/

/-- The `fs.unlink` side channel: `some err` when deletion fails. -/
abbrev UnlinkOracle := String → Option String

/-- `path.join(__dirname, "..", "assets", "userFiles", filename)`. -/
def uploadPath (filename : String) : String :=
  "../assets/userFiles/" ++ filename

/-- `safeUnlink(filePath)`: no-op on a falsy path; otherwise unlink the file,
and log (without rethrowing) when the unlink callback reports an error. -/
def safeUnlink (unlink : UnlinkOracle) (filePath : String) : List Ev :=
  if strFalsy filePath then []
  else
    match unlink filePath with
    | some err =>
      [Ev.unlinkFile filePath,
       Ev.logError ("Failed to remove file: " ++ filePath ++ " " ++ err)]
    | none => [Ev.unlinkFile filePath]

/-- The `if (file) { … safeUnlink(filePath) }` rollback blocks of `createPost`. -/
def uploadCleanup (unlink : UnlinkOracle) (file : Option String) : List Ev :=
  match file with
  | some f => safeUnlink unlink (uploadPath f)
  | none => []

/-! ## createPost (lines 118–183) and addComment (lines 574–622) -/

/-- The request data `createPost` reads from `req`. -/
structure CreatePostReq where
  communityId : Nat
  content : Option String
  userId : Nat
  file : Option String
  fileUrl : Option String
  fileType : Option String
deriving DecidableEq

/-- `Community.findOne({_id: communityId, members: userId})`. -/
def findCommunity (st : Store) (communityId userId : Nat) : Option Community :=
  st.communities.find? (fun c => c.id == communityId && c.members.contains userId)

/-- `createPost`: membership check, then rule-based moderation, then the AI
moderation check, then creation of the post. -/
def createPost (rules : List String) (retest : RegexOracle) (cfg : EnvConfig)
    (fr : FetchResult) (unlink : UnlinkOracle) (st : Store) (req : CreatePostReq) :
    HttpResp × Store × List Ev :=
  match findCommunity st req.communityId req.userId with
  | none =>
    (⟨401, "Unauthorized to post in this community", none, none⟩, st,
      uploadCleanup unlink req.file)
  | some _ =>
    if matchesRuleBased retest rules (some (req.content.getD "")) then
      (⟨403, "Post blocked by moderation (rule match)", none, none⟩, st,
        Ev.ruleCheck (some (req.content.getD "")) :: uploadCleanup unlink req.file)
    else
      let aiCheck := aiModerationCheck cfg fr (req.content.getD "")
      if aiCheck.flagged then
        (⟨403, "Post blocked by moderation (AI)",
           some (jsOrStr aiCheck.reason "AI flagged the content"), none⟩, st,
          Ev.ruleCheck (some (req.content.getD "")) :: Ev.scorerCall (req.content.getD "")
            :: uploadCleanup unlink req.file)
      else
        let newPost : Post := ⟨st.nextPostId, req.userId, req.communityId, req.content,
          truthyOrNull req.fileUrl, truthyOrNull req.fileType, []⟩
        (⟨200, "", none, some newPost⟩,
          { st with posts := st.posts ++ [newPost], nextPostId := st.nextPostId + 1 },
          [Ev.ruleCheck (some (req.content.getD "")), Ev.scorerCall (req.content.getD ""),
           Ev.insertPost newPost.id])

/-- `$addToSet: {comments: id}` on the post matched by `_id`. -/
def addToSetComment (postId cid : Nat) (posts : List Post) : List Post :=
  updateFirst (fun p => p.id == postId)
    (fun p => if p.comments.contains cid then p else { p with comments := p.comments ++ [cid] })
    posts

/-- `addComment`: rule-based moderation, then the AI moderation check, then
creation of the comment and `$addToSet` of its id on the parent post. -/
def addComment (rules : List String) (retest : RegexOracle) (cfg : EnvConfig)
    (fr : FetchResult) (st : Store) (userId postId : Nat) (content : Option String) :
    HttpResp × Store × List Ev :=
  if matchesRuleBased retest rules (some (content.getD "")) then
    (⟨403, "Comment blocked by moderation (rule match)", none, none⟩, st,
      [Ev.ruleCheck (some (content.getD ""))])
  else
    let aiCheck := aiModerationCheck cfg fr (content.getD "")
    if aiCheck.flagged then
      (⟨403, "Comment blocked by moderation (AI)",
         some (jsOrStr aiCheck.reason "AI flagged the content"), none⟩, st,
        [Ev.ruleCheck (some (content.getD "")), Ev.scorerCall (content.getD "")])
    else
      let c : CommentDoc := ⟨st.nextCommentId, userId, postId, content⟩
      (⟨200, "Comment added successfully", none, none⟩,
        { st with comments := st.comments ++ [c],
                  posts := addToSetComment postId c.id st.posts,
                  nextCommentId := st.nextCommentId + 1 },
        [Ev.ruleCheck (some (content.getD "")), Ev.scorerCall (content.getD ""),
         Ev.insertComment c.id])

/-! ## Claims about the content-creation path (C1, C9) -/

theorem scorerCall_not_mem_safeUnlink (unlink : UnlinkOracle) (p : String)
    (s : String) : Ev.scorerCall s ∉ safeUnlink unlink p := by
  unfold safeUnlink
  by_cases h : strFalsy p
  · simp [h]
  · cases unlink p <;> simp [h]

theorem scorerCall_not_mem_uploadCleanup (unlink : UnlinkOracle)
    (file : Option String) (s : String) :
    Ev.scorerCall s ∉ uploadCleanup unlink file := by
  cases file with
  | none => simp [uploadCleanup]
  | some f => exact scorerCall_not_mem_safeUnlink unlink (uploadPath f) s

/-- C1: on the content-creation path (`createPost` with the membership check
passed, and `addComment`), the rule-based matcher is evaluated first: when it
matches, the request is rejected with status 403 and a message containing
`"rule match"`, no scorer call is ever made and the store is unchanged; when
it does not match, the scorer is invoked and its verdict alone decides
acceptance (403 when flagged, 200 otherwise). -/
theorem C1_gate_order (rules : List String) (retest : RegexOracle)
    (cfg : EnvConfig) (fr : FetchResult) (unlink : UnlinkOracle) (st : Store)
    (req : CreatePostReq) (userId postId : Nat) (content : Option String)
    (hmember : (findCommunity st req.communityId req.userId).isSome = true) :
    (matchesRuleBased retest rules (some (req.content.getD "")) = true →
      (createPost rules retest cfg fr unlink st req).1.status = 403 ∧
      containsStr (createPost rules retest cfg fr unlink st req).1.message "rule match" = true ∧
      (∀ s, Ev.scorerCall s ∉ (createPost rules retest cfg fr unlink st req).2.2) ∧
      (createPost rules retest cfg fr unlink st req).2.1 = st) ∧
    (matchesRuleBased retest rules (some (req.content.getD "")) = false →
      Ev.scorerCall (req.content.getD "") ∈ (createPost rules retest cfg fr unlink st req).2.2 ∧
      (createPost rules retest cfg fr unlink st req).1.status
        = (if (aiModerationCheck cfg fr (req.content.getD "")).flagged then 403 else 200)) ∧
    (matchesRuleBased retest rules (some (content.getD "")) = true →
      (addComment rules retest cfg fr st userId postId content).1.status = 403 ∧
      containsStr (addComment rules retest cfg fr st userId postId content).1.message
        "rule match" = true ∧
      (∀ s, Ev.scorerCall s ∉ (addComment rules retest cfg fr st userId postId content).2.2) ∧
      (addComment rules retest cfg fr st userId postId content).2.1 = st) ∧
    (matchesRuleBased retest rules (some (content.getD "")) = false →
      Ev.scorerCall (content.getD "")
        ∈ (addComment rules retest cfg fr st userId postId content).2.2 ∧
      (addComment rules retest cfg fr st userId postId content).1.status
        = (if (aiModerationCheck cfg fr (content.getD "")).flagged then 403 else 200)) := by
  obtain ⟨c, hc⟩ := Option.isSome_iff_exists.mp hmember
  refine ⟨?_, ?_, ?_, ?_⟩
  · intro hrm
    refine ⟨by simp [createPost, hc, hrm], by simp [createPost, hc, hrm]; decide, ?_, by simp [createPost, hc, hrm]⟩
    intro s
    simp only [createPost, hc, hrm, if_true]
    intro hmem
    rcases List.mem_cons.mp hmem with h | h
    · exact absurd h (by simp)
    · exact scorerCall_not_mem_uploadCleanup unlink req.file s h
  · intro hrm
    by_cases hf : (aiModerationCheck cfg fr (req.content.getD "")).flagged
      <;> simp [createPost, hc, hrm, hf]
  · intro hrm
    exact ⟨by simp [addComment, hrm], by simp [addComment, hrm]; decide,
      by intro s; simp [addComment, hrm], by simp [addComment, hrm]⟩
  · intro hrm
    by_cases hf : (aiModerationCheck cfg fr (content.getD "")).flagged
      <;> simp [addComment, hrm, hf]

/-- Witness for C1: with rule list `["spam"]` and a member of the community,
the post `"This is SPAM content"` is rejected with a rule-match message and
the scorer is never called, while a clean text is accepted when the
(disabled) scorer does not flag it. -/
theorem C1_gate_order_witness :
    (createPost ["spam"] (fun _ _ _ => Except.ok false) ⟨none, none⟩ FetchResult.throwErr
        (fun _ => none)
        ⟨[⟨1, [7]⟩], [], [], [], [], 0, 0⟩
        ⟨1, some "This is SPAM content", 7, none, none, none⟩).1.status = 403 ∧
    (∀ s, Ev.scorerCall s ∉ (createPost ["spam"] (fun _ _ _ => Except.ok false) ⟨none, none⟩
        FetchResult.throwErr (fun _ => none)
        ⟨[⟨1, [7]⟩], [], [], [], [], 0, 0⟩
        ⟨1, some "This is SPAM content", 7, none, none, none⟩).2.2) ∧
    (addComment ["spam"] (fun _ _ _ => Except.ok false) ⟨none, none⟩ FetchResult.throwErr
        ⟨[⟨1, [7]⟩], [], [], [], [], 0, 0⟩ 7 3 (some "hello there")).1.status = 200 := by
  have h := C1_gate_order ["spam"] (fun _ _ _ => Except.ok false) ⟨none, none⟩
    FetchResult.throwErr (fun _ => none)
    ⟨[⟨1, [7]⟩], [], [], [], [], 0, 0⟩
    ⟨1, some "This is SPAM content", 7, none, none, none⟩ 7 3 (some "hello there")
    (by decide)
  refine ⟨(h.1 (by decide)).1, (h.1 (by decide)).2.2.1, ?_⟩
  have h4 := h.2.2.2 (by decide)
  rw [h4.2]
  decide

theorem strFalsy_uploadPath (f : String) : strFalsy (uploadPath f) = false := by
  have h : (uploadPath f).data = ("../assets/userFiles/").data ++ f.data :=
    strData_append _ _
  rw [strFalsy, h]
  rfl

theorem unlinkFile_mem_safeUnlink (unlink : UnlinkOracle) (p : String)
    (hp : strFalsy p = false) : Ev.unlinkFile p ∈ safeUnlink unlink p := by
  unfold safeUnlink
  cases unlink p <;> simp [hp]

theorem logError_mem_safeUnlink (unlink : UnlinkOracle) (p err : String)
    (hp : strFalsy p = false) (herr : unlink p = some err) :
    Ev.logError ("Failed to remove file: " ++ p ++ " " ++ err) ∈ safeUnlink unlink p := by
  unfold safeUnlink
  simp [hp, herr]

/-- C9: in `createPost`, when the moderation verdict is flagged — by a rule
match or by the scorer — and a media file was uploaded, the uploaded file is
deleted from disk as rollback; the response does not depend on the unlink
outcome, and a failed deletion is logged. -/
theorem C9_upload_rollback (rules : List String) (retest : RegexOracle)
    (cfg : EnvConfig) (fr : FetchResult) (unlink othUnlink : UnlinkOracle)
    (st : Store) (req : CreatePostReq) (f : String)
    (hfile : req.file = some f)
    (hmember : (findCommunity st req.communityId req.userId).isSome = true)
    (hflag : matchesRuleBased retest rules (some (req.content.getD "")) = true ∨
      (matchesRuleBased retest rules (some (req.content.getD "")) = false ∧
       (aiModerationCheck cfg fr (req.content.getD "")).flagged = true)) :
    Ev.unlinkFile (uploadPath f) ∈ (createPost rules retest cfg fr unlink st req).2.2 ∧
    (createPost rules retest cfg fr unlink st req).1
      = (createPost rules retest cfg fr othUnlink st req).1 ∧
    (∀ err, unlink (uploadPath f) = some err →
      Ev.logError ("Failed to remove file: " ++ uploadPath f ++ " " ++ err)
        ∈ (createPost rules retest cfg fr unlink st req).2.2) := by
  obtain ⟨c, hc⟩ := Option.isSome_iff_exists.mp hmember
  have hclean : ∀ ev, ev ∈ safeUnlink unlink (uploadPath f) →
      ev ∈ uploadCleanup unlink req.file := by
    intro ev hev
    simpa [uploadCleanup, hfile] using hev
  rcases hflag with hrm | ⟨hrm, hf⟩
  · refine ⟨?_, ?_, ?_⟩
    · simp only [createPost, hc, hrm, if_true]
      exact List.mem_cons_of_mem _
        (hclean _ (unlinkFile_mem_safeUnlink unlink _ (strFalsy_uploadPath f)))
    · simp [createPost, hc, hrm]
    · intro err herr
      simp only [createPost, hc, hrm, if_true]
      exact List.mem_cons_of_mem _
        (hclean _ (logError_mem_safeUnlink unlink _ err (strFalsy_uploadPath f) herr))
  · refine ⟨?_, ?_, ?_⟩
    · simp only [createPost, hc, hrm, hf, if_true, if_false]
      exact List.mem_cons_of_mem _ (List.mem_cons_of_mem _
        (hclean _ (unlinkFile_mem_safeUnlink unlink _ (strFalsy_uploadPath f))))
    · simp [createPost, hc, hrm, hf]
    · intro err herr
      simp only [createPost, hc, hrm, hf, if_true, if_false]
      exact List.mem_cons_of_mem _ (List.mem_cons_of_mem _
        (hclean _ (logError_mem_safeUnlink unlink _ err (strFalsy_uploadPath f) herr)))

/-- Witness for C9: a rule-flagged post with an uploaded file — the file's
unlink is performed, the failure of the unlink is logged, and the response is
the same as with a succeeding unlink. -/
theorem C9_upload_rollback_witness :
    Ev.unlinkFile (uploadPath "pic.png")
      ∈ (createPost ["spam"] (fun _ _ _ => Except.ok false) ⟨none, none⟩
          FetchResult.throwErr (fun _ => some "EPERM")
          ⟨[⟨1, [7]⟩], [], [], [], [], 0, 0⟩
          ⟨1, some "spam here", 7, some "pic.png", none, none⟩).2.2 ∧
    (createPost ["spam"] (fun _ _ _ => Except.ok false) ⟨none, none⟩
        FetchResult.throwErr (fun _ => some "EPERM")
        ⟨[⟨1, [7]⟩], [], [], [], [], 0, 0⟩
        ⟨1, some "spam here", 7, some "pic.png", none, none⟩).1
      = (createPost ["spam"] (fun _ _ _ => Except.ok false) ⟨none, none⟩
          FetchResult.throwErr (fun _ => none)
          ⟨[⟨1, [7]⟩], [], [], [], [], 0, 0⟩
          ⟨1, some "spam here", 7, some "pic.png", none, none⟩).1 ∧
    Ev.logError ("Failed to remove file: " ++ uploadPath "pic.png" ++ " " ++ "EPERM")
      ∈ (createPost ["spam"] (fun _ _ _ => Except.ok false) ⟨none, none⟩
          FetchResult.throwErr (fun _ => some "EPERM")
          ⟨[⟨1, [7]⟩], [], [], [], [], 0, 0⟩
          ⟨1, some "spam here", 7, some "pic.png", none, none⟩).2.2 := by
  have h := C9_upload_rollback ["spam"] (fun _ _ _ => Except.ok false) ⟨none, none⟩
    FetchResult.throwErr (fun _ => some "EPERM") (fun _ => none)
    ⟨[⟨1, [7]⟩], [], [], [], [], 0, 0⟩
    ⟨1, some "spam here", 7, some "pic.png", none, none⟩ "pic.png"
    rfl (by decide) (Or.inl (by decide))
  exact ⟨h.1, h.2.1, h.2.2 "EPERM" rfl⟩

/-! ## confirmPost (lines 185–226), sequential form -/

/-- `PendingPost.findOne({confirmationToken, status: "pending", user: userId})`. -/
def findPending (st : Store) (token : String) (userId : Nat) : Option PendingPostDoc :=
  st.pendingPosts.find? (fun p =>
    p.confirmationToken == token && p.status == "pending" && p.user == userId)

/-- The post materialized from a pending record (the `new Post({user, community,
content, fileUrl, fileType})` of `confirmPost`). -/
def materialize (pid : Nat) (doc : PendingPostDoc) : Post :=
  ⟨pid, doc.user, doc.community, doc.content, doc.fileUrl, doc.fileType, []⟩

/-- `confirmPost`: look up the owner-matched still-pending record; on a miss
respond 404; on a hit, `findOneAndDelete` the record by token (its result is
not inspected) and then save the new live post. -/
def confirmPost (st : Store) (token : String) (userId : Nat) :
    HttpResp × Store × List Ev :=
  match findPending st token userId with
  | none => (⟨404, "Post not found", none, none⟩, st, [])
  | some pendingPost =>
    let newPost := materialize st.nextPostId pendingPost
    (⟨200, "", none, some newPost⟩,
      { st with
          pendingPosts := removeFirst (fun p => p.confirmationToken == token) st.pendingPosts,
          posts := st.posts ++ [newPost],
          nextPostId := st.nextPostId + 1 },
      [Ev.delPending token, Ev.insertPost newPost.id])

/-! ## Two concurrent `confirmPost` requests (C4)

Node.js interleaves the two request handlers only at `await` boundaries, so
each of `findOne`, `findOneAndDelete` and `save` is one atomic step on the
shared store; a schedule picks which request advances at each step. -/

/-- The control state of one in-flight `confirmPost` request, cut at its
`await` boundaries. -/
inductive CThread where
  | start
  | found (doc : PendingPostDoc)
  | deleted (doc : PendingPostDoc)
  | done (resp : HttpResp)
deriving DecidableEq

/-- One atomic step of a `confirmPost` request: `findOne` (responding 404 on a
miss), then `findOneAndDelete` by token, then `save` of the new post. -/
def cstep (token : String) (userId : Nat) (st : Store) : CThread → Store × CThread
  | CThread.start =>
    match findPending st token userId with
    | none => (st, CThread.done ⟨404, "Post not found", none, none⟩)
    | some d => (st, CThread.found d)
  | CThread.found d =>
    ({ st with
        pendingPosts := removeFirst (fun p => p.confirmationToken == token) st.pendingPosts },
      CThread.deleted d)
  | CThread.deleted d =>
    let newPost := materialize st.nextPostId d
    ({ st with posts := st.posts ++ [newPost], nextPostId := st.nextPostId + 1 },
      CThread.done ⟨200, "", none, some newPost⟩)
  | CThread.done r => (st, CThread.done r)

/-- Shared store plus the two racing `confirmPost` requests. -/
structure MState where
  store : Store
  threadA : CThread
  threadB : CThread
deriving DecidableEq

/-- Run a schedule: `true` advances request A, `false` advances request B. -/
def runSched (token : String) (userId : Nat) : List Bool → MState → MState
  | [], m => m
  | pick :: rest, m =>
    if pick then
      let s := cstep token userId m.store m.threadA
      runSched token userId rest ⟨s.1, s.2, m.threadB⟩
    else
      let s := cstep token userId m.store m.threadB
      runSched token userId rest ⟨s.1, m.threadA, s.2⟩

/-- The HTTP status a request finished with, if it finished. -/
def threadStatus : CThread → Option Nat
  | CThread.done r => some r.status
  | _ => none

/-! ## clearPendingPosts (lines 251–269) -/

/-- `clearPendingPosts`: a missing user makes `user.role` throw (caught as a
500 response); a non-moderator gets 401; otherwise every pending record with
`createdAt <= now − 1h` is bulk-deleted, regardless of owner. -/
def clearPendingPosts (st : Store) (userId : Nat) (now : Int) : HttpResp × Store :=
  match st.users.find? (fun u => u.id == userId) with
  | none => (⟨500, "Error clearing pending posts", none, none⟩, st)
  | some u =>
    if u.role != "moderator" then (⟨401, "Unauthorized", none, none⟩, st)
    else
      (⟨200, "Pending posts cleared", none, none⟩,
        { st with
            pendingPosts := st.pendingPosts.filter
              (fun p => !decide (p.createdAt ≤ now - 3600000)) })

/-! ## cleanupOffensiveComments (lines 675–710) -/

/-- The `for (const comment of allComments)` loop of `cleanupOffensiveComments`:
each comment of the snapshot is checked against the rules; a match pulls the
comment's id from its parent post's `comments` array and then deletes the
comment document, counting it. -/
def sweepComments (rules : List String) (retest : RegexOracle) :
    List CommentDoc → Store → Store × Nat × List Ev
  | [], st => (st, 0, [])
  | c :: rest, st =>
    if matchesRuleBased retest rules c.content then
      let st' := { st with
        posts := updateFirst (fun p => p.id == c.post)
          (fun p => { p with comments := p.comments.filter (fun cid => cid != c.id) }) st.posts,
        comments := removeFirst (fun x => x.id == c.id) st.comments }
      let r := sweepComments rules retest rest st'
      (r.1, r.2.1 + 1,
        Ev.ruleCheck c.content :: Ev.pullCommentRef c.post c.id :: Ev.delComment c.id :: r.2.2)
    else
      let r := sweepComments rules retest rest st
      (r.1, r.2.1, Ev.ruleCheck c.content :: r.2.2)

/-- `cleanupOffensiveComments`: admin-only; sweeps the comment collection with
the rule matcher and reports the number of removed comments. -/
def cleanupOffensiveComments (rules : List String) (retest : RegexOracle)
    (st : Store) (userId : Nat) : HttpResp × Store × Nat × List Ev :=
  match st.users.find? (fun u => u.id == userId) with
  | none => (⟨403, "Admin access required", none, none⟩, st, 0, [])
  | some u =>
    if u.role != "admin" then (⟨403, "Admin access required", none, none⟩, st, 0, [])
    else
      let r := sweepComments rules retest st.comments st
      (⟨200, "Cleanup complete. Removed " ++ toString r.2.1 ++ " offensive comments.",
          none, none⟩,
        r.1, r.2.1, r.2.2)

/-! ## Claims about the pending-post lifecycle (C6, C10, C4) -/

theorem not_mem_removeFirst {α β : Type} [BEq β] [LawfulBEq β] (f : α → β) (a : β)
    (l : List α) (hnd : (l.map f).Nodup) (x : α) (hx : x ∈ l) (hfx : f x = a) :
    x ∉ removeFirst (fun p => f p == a) l := by
  induction l with
  | nil => simp [removeFirst]
  | cons y ys ih =>
    rw [List.map_cons, List.nodup_cons] at hnd
    obtain ⟨hy, hnd2⟩ := hnd
    by_cases hpy : f y = a
    · have hred : removeFirst (fun p => f p == a) (y :: ys) = ys := by
        simp [removeFirst, hpy]
      rw [hred]
      intro hmem
      apply hy
      rw [hpy, ← hfx]
      exact List.mem_map_of_mem f hmem
    · have hred : removeFirst (fun p => f p == a) (y :: ys)
          = y :: removeFirst (fun p => f p == a) ys := by
        simp [removeFirst, hpy]
      rw [hred]
      rcases List.mem_cons.mp hx with rfl | hx2
      · exact absurd hfx hpy
      · intro hmem
        rcases List.mem_cons.mp hmem with rfl | hmem2
        · exact hpy hfx
        · exact ih hnd2 hx2 hmem2

/-- C6: `confirmPost` succeeds only when a pending record matching the token,
the owner and status `"pending"` exists, and responds 404 NotFound (leaving
the store untouched) otherwise; on success the pending record is deleted and
the live post inserted, in that order (`delPending` precedes `insertPost` in
the event trace) — with unique confirmation tokens the matched record itself
is gone from the pending store. -/
theorem C6_confirm (st : Store) (token : String) (userId : Nat)
    (hnd : (st.pendingPosts.map (fun p => p.confirmationToken)).Nodup) :
    (findPending st token userId = none →
      confirmPost st token userId = (⟨404, "Post not found", none, none⟩, st, [])) ∧
    (∀ doc, findPending st token userId = some doc →
      (confirmPost st token userId).1.status = 200 ∧
      (confirmPost st token userId).2.1.pendingPosts
        = removeFirst (fun p => p.confirmationToken == token) st.pendingPosts ∧
      doc ∉ (confirmPost st token userId).2.1.pendingPosts ∧
      (confirmPost st token userId).2.1.posts
        = st.posts ++ [materialize st.nextPostId doc] ∧
      (confirmPost st token userId).2.2
        = [Ev.delPending token, Ev.insertPost st.nextPostId]) := by
  constructor
  · intro h
    simp [confirmPost, h]
  · intro doc h
    have hmem : doc ∈ st.pendingPosts := List.mem_of_find?_eq_some h
    have hpred := List.find?_some h
    have htok : doc.confirmationToken = token := by
      simp only [Bool.and_eq_true, beq_iff_eq] at hpred
      exact hpred.1.1
    refine ⟨by simp [confirmPost, h], by simp [confirmPost, h], ?_,
      by simp [confirmPost, h], by simp [confirmPost, h, materialize]⟩
    have hnot := not_mem_removeFirst (fun p : PendingPostDoc => p.confirmationToken) token
      st.pendingPosts hnd doc hmem htok
    simpa [confirmPost, h] using hnot

/-- Witness for C6: a matching pending record is confirmed — status 200, the
record is gone, and the trace deletes the pending record before inserting the
live post. -/
theorem C6_confirm_witness :
    (confirmPost ⟨[], [], [], [], [⟨"t", 1, 5, some "hello", none, none, "pending", 0⟩], 0, 0⟩
        "t" 1).1.status = 200 ∧
    (⟨"t", 1, 5, some "hello", none, none, "pending", 0⟩ : PendingPostDoc)
      ∉ (confirmPost ⟨[], [], [], [], [⟨"t", 1, 5, some "hello", none, none, "pending", 0⟩], 0, 0⟩
          "t" 1).2.1.pendingPosts ∧
    (confirmPost ⟨[], [], [], [], [⟨"t", 1, 5, some "hello", none, none, "pending", 0⟩], 0, 0⟩
        "t" 1).2.2 = [Ev.delPending "t", Ev.insertPost 0] := by
  have h := (C6_confirm
      ⟨[], [], [], [], [⟨"t", 1, 5, some "hello", none, none, "pending", 0⟩], 0, 0⟩
      "t" 1 (by decide)).2
    ⟨"t", 1, 5, some "hello", none, none, "pending", 0⟩ (by decide)
  exact ⟨h.1, h.2.2.1, h.2.2.2.2⟩

/-- C10: a successful confirm materializes the live post with the pending
record's `user`, `community`, `content`, `fileUrl` and `fileType` unchanged,
and the confirm path performs no re-moderation: its event trace contains no
rule check and no scorer call (indeed `confirmPost` consults neither the rule
list nor the scorer configuration). -/
theorem C10_confirm_no_remoderation (st : Store) (token : String) (userId : Nat)
    (doc : PendingPostDoc) (h : findPending st token userId = some doc) :
    (confirmPost st token userId).1.post = some (materialize st.nextPostId doc) ∧
    (materialize st.nextPostId doc).user = doc.user ∧
    (materialize st.nextPostId doc).community = doc.community ∧
    (materialize st.nextPostId doc).content = doc.content ∧
    (materialize st.nextPostId doc).fileUrl = doc.fileUrl ∧
    (materialize st.nextPostId doc).fileType = doc.fileType ∧
    (confirmPost st token userId).2.1.posts = st.posts ++ [materialize st.nextPostId doc] ∧
    (∀ e ∈ (confirmPost st token userId).2.2,
      (∀ t, e ≠ Ev.ruleCheck t) ∧ (∀ s, e ≠ Ev.scorerCall s)) := by
  refine ⟨by simp [confirmPost, h], rfl, rfl, rfl, rfl, rfl, by simp [confirmPost, h], ?_⟩
  intro e he
  have he2 : e = Ev.delPending token ∨ e = Ev.insertPost (materialize st.nextPostId doc).id := by
    simpa [confirmPost, h] using he
  rcases he2 with rfl | rfl
  · exact ⟨fun t => by simp, fun s => by simp⟩
  · exact ⟨fun t => by simp, fun s => by simp⟩

/-- Witness for C10: the confirmed post of the C6 scenario carries the pending
content unchanged and the trace shows no moderation events. -/
theorem C10_confirm_no_remoderation_witness :
    (confirmPost ⟨[], [], [], [], [⟨"t", 1, 5, some "hello", none, none, "pending", 0⟩], 0, 0⟩
        "t" 1).1.post
      = some (materialize 0 ⟨"t", 1, 5, some "hello", none, none, "pending", 0⟩) ∧
    (∀ e ∈ (confirmPost ⟨[], [], [], [], [⟨"t", 1, 5, some "hello", none, none, "pending", 0⟩], 0, 0⟩
        "t" 1).2.2, (∀ t, e ≠ Ev.ruleCheck t) ∧ (∀ s, e ≠ Ev.scorerCall s)) := by
  have h := C10_confirm_no_remoderation
    ⟨[], [], [], [], [⟨"t", 1, 5, some "hello", none, none, "pending", 0⟩], 0, 0⟩
    "t" 1 ⟨"t", 1, 5, some "hello", none, none, "pending", 0⟩ (by decide)
  exact ⟨h.1, h.2.2.2.2.2.2.2⟩

/-- C4 as stated is false on the code: success of a `confirmPost` request is
decided by a plain `findOne` whose result is not revalidated by the later
`findOneAndDelete` (whose own result is ignored), so under the schedule
A-find, B-find, A-delete, A-save, B-delete, B-save both racing confirms of
the same token respond 200 and two live posts materialize from the single
pending record. -/
theorem C4_counterexample :
    threadStatus (runSched "tok" 1 [true, false, true, true, false, false]
        ⟨⟨[], [], [], [], [⟨"tok", 1, 5, some "hi", none, none, "pending", 0⟩], 0, 0⟩,
         CThread.start, CThread.start⟩).threadA = some 200 ∧
    threadStatus (runSched "tok" 1 [true, false, true, true, false, false]
        ⟨⟨[], [], [], [], [⟨"tok", 1, 5, some "hi", none, none, "pending", 0⟩], 0, 0⟩,
         CThread.start, CThread.start⟩).threadB = some 200 ∧
    (runSched "tok" 1 [true, false, true, true, false, false]
        ⟨⟨[], [], [], [], [⟨"tok", 1, 5, some "hi", none, none, "pending", 0⟩], 0, 0⟩,
         CThread.start, CThread.start⟩).store.posts.length = 2 := by
  decide

/-- C4 amended: the pending record itself is consumed at most once (the
`findOneAndDelete` is atomic), so when the two confirms of the same token run
serially — in either order — exactly one succeeds and the other observes
NotFound; but under concurrent interleaving both confirms can succeed and
both materialize a live post, because success is decided by the earlier
non-atomic `findOne` and the `findOneAndDelete` result is ignored. -/
theorem C4_amended (token : String) (userId : Nat) (doc : PendingPostDoc) (st : Store)
    (hpend : st.pendingPosts = [doc])
    (htok : doc.confirmationToken = token)
    (hstat : doc.status = "pending")
    (huser : doc.user = userId) :
    (threadStatus (runSched token userId [true, true, true, false, false, false]
        ⟨st, CThread.start, CThread.start⟩).threadA = some 200 ∧
     threadStatus (runSched token userId [true, true, true, false, false, false]
        ⟨st, CThread.start, CThread.start⟩).threadB = some 404) ∧
    (threadStatus (runSched token userId [false, false, false, true, true, true]
        ⟨st, CThread.start, CThread.start⟩).threadA = some 404 ∧
     threadStatus (runSched token userId [false, false, false, true, true, true]
        ⟨st, CThread.start, CThread.start⟩).threadB = some 200) := by
  obtain ⟨cs, us, ps, cms, pend, nid, ncid⟩ := st
  obtain ⟨tk, u, co, ct, fu, ft, s, ca⟩ := doc
  simp only at hpend htok hstat huser
  subst hpend
  subst htok
  subst hstat
  subst huser
  constructor
  · simp [runSched, cstep, findPending, threadStatus, removeFirst]
  · simp [runSched, cstep, findPending, threadStatus, removeFirst]

/-- Witness for the amended C4: serially, the first confirm succeeds and the
second observes NotFound. -/
theorem C4_amended_witness :
    threadStatus (runSched "tok" 1 [true, true, true, false, false, false]
        ⟨⟨[], [], [], [], [⟨"tok", 1, 5, some "hi", none, none, "pending", 0⟩], 0, 0⟩,
         CThread.start, CThread.start⟩).threadA = some 200 ∧
    threadStatus (runSched "tok" 1 [true, true, true, false, false, false]
        ⟨⟨[], [], [], [], [⟨"tok", 1, 5, some "hi", none, none, "pending", 0⟩], 0, 0⟩,
         CThread.start, CThread.start⟩).threadB = some 404 := by
  have h := C4_amended "tok" 1 ⟨"tok", 1, 5, some "hi", none, none, "pending", 0⟩
    ⟨[], [], [], [], [⟨"tok", 1, 5, some "hi", none, none, "pending", 0⟩], 0, 0⟩
    rfl rfl rfl rfl
  exact h.1

/-! ## Claim about expiry (C8) -/

/-- C8: `clearPendingPosts` is permitted only to moderator-role actors (anyone
else gets 401 and an unchanged store); a moderator bulk-deletes exactly the
pending records with `createdAt ≤ now − 1h`, keeping the rest — a predicate
on `createdAt` alone, regardless of owner — and the operation is idempotent:
re-running it against the resulting store with the same `now` changes
nothing. -/
theorem C8_expire (st : Store) (userId : Nat) (now : Int) (u : UserDoc)
    (hfind : st.users.find? (fun v => v.id == userId) = some u) :
    (u.role ≠ "moderator" →
      clearPendingPosts st userId now = (⟨401, "Unauthorized", none, none⟩, st)) ∧
    (u.role = "moderator" →
      (clearPendingPosts st userId now).1.status = 200 ∧
      (clearPendingPosts st userId now).2.pendingPosts
        = st.pendingPosts.filter (fun p => !decide (p.createdAt ≤ now - 3600000)) ∧
      (∀ p ∈ st.pendingPosts, p.createdAt ≤ now - 3600000 →
        p ∉ (clearPendingPosts st userId now).2.pendingPosts) ∧
      (∀ p ∈ st.pendingPosts, ¬(p.createdAt ≤ now - 3600000) →
        p ∈ (clearPendingPosts st userId now).2.pendingPosts) ∧
      clearPendingPosts (clearPendingPosts st userId now).2 userId now
        = (⟨200, "Pending posts cleared", none, none⟩, (clearPendingPosts st userId now).2)) := by
  obtain ⟨cs, us, ps, cms, pend, nid, ncid⟩ := st
  simp only at hfind
  constructor
  · intro hrole
    simp [clearPendingPosts, hfind, hrole]
  · intro hrole
    have hred : clearPendingPosts ⟨cs, us, ps, cms, pend, nid, ncid⟩ userId now
        = (⟨200, "Pending posts cleared", none, none⟩,
           ⟨cs, us, ps, cms,
            List.filter (fun p => !decide (p.createdAt ≤ now - 3600000)) pend, nid, ncid⟩) := by
      simp [clearPendingPosts, hfind, hrole]
    rw [hred]
    refine ⟨rfl, rfl, ?_, ?_, ?_⟩
    · intro p hp hle
      simp [List.mem_filter, hle]
    · intro p hp hgt
      simp only [List.mem_filter]
      exact ⟨hp, by simp [hgt]⟩
    · simp [clearPendingPosts, hfind, hrole, List.filter_filter]

/-! ## Claims about the cleanup sweeper (C7) -/

theorem removeFirst_sublist {α : Type} (pred : α → Bool) (l : List α) :
    List.Sublist (removeFirst pred l) l := by
  induction l with
  | nil => simp [removeFirst]
  | cons y ys ih =>
    by_cases h : pred y
    · simp only [removeFirst, h, if_true]
      exact List.sublist_cons_self y ys
    · simp only [removeFirst, h, if_false]
      exact ih.cons₂ y

theorem removeFirst_eq_filter {α β : Type} [BEq β] [LawfulBEq β] (f : α → β) (a : β)
    (l : List α) (hnd : (l.map f).Nodup) :
    removeFirst (fun x => f x == a) l = l.filter (fun x => !(f x == a)) := by
  induction l with
  | nil => rfl
  | cons y ys ih =>
    rw [List.map_cons, List.nodup_cons] at hnd
    obtain ⟨hy, hnd2⟩ := hnd
    by_cases h : f y = a
    · have hself : ys.filter (fun x => !(f x == a)) = ys := by
        apply List.filter_eq_self.mpr
        intro x hx
        have hne : f x ≠ a := by
          intro hfx
          exact hy (by rw [h, ← hfx]; exact List.mem_map_of_mem f hx)
        simp [hne]
      simp [removeFirst, h, hself]
    · simp [removeFirst, h, ih hnd2]

theorem updateFirst_eq_map {α β : Type} [BEq β] [LawfulBEq β] (f : α → β) (a : β)
    (g : α → α) (l : List α) (hnd : (l.map f).Nodup) :
    updateFirst (fun x => f x == a) g l
      = l.map (fun x => if f x == a then g x else x) := by
  induction l with
  | nil => rfl
  | cons y ys ih =>
    rw [List.map_cons, List.nodup_cons] at hnd
    obtain ⟨hy, hnd2⟩ := hnd
    by_cases h : f y = a
    · have hys : ys.map (fun x => if f x == a then g x else x) = ys := by
        have hpt : ∀ x ∈ ys, (if f x == a then g x else x) = x := by
          intro x hx
          have hne : f x ≠ a := by
            intro hfx
            exact hy (by rw [h, ← hfx]; exact List.mem_map_of_mem f hx)
          simp [hne]
        rw [List.map_congr_left hpt]
        simp
      simp [updateFirst, h, hys]
    · simp [updateFirst, h, ih hnd2]

theorem updateFirst_map_of_id {α β : Type} (pred : α → Bool) (g : α → α)
    (f : α → β) (hg : ∀ x, f (g x) = f x) (l : List α) :
    (updateFirst pred g l).map f = l.map f := by
  induction l with
  | nil => rfl
  | cons y ys ih =>
    by_cases h : pred y
    · simp [updateFirst, h, hg]
    · simp [updateFirst, h, ih]

theorem sweep_count (rules : List String) (retest : RegexOracle) (l : List CommentDoc) :
    ∀ st : Store, (sweepComments rules retest l st).2.1
      = (l.filter (fun c => matchesRuleBased retest rules c.content)).length := by
  induction l with
  | nil => intro st; rfl
  | cons c rest ih =>
    intro st
    by_cases h : matchesRuleBased retest rules c.content
    · simp [sweepComments, h, ih]
    · simp [sweepComments, h, ih]

theorem sweep_trace (rules : List String) (retest : RegexOracle) (l : List CommentDoc) :
    ∀ st : Store, (sweepComments rules retest l st).2.2
      = l.flatMap (fun c => if matchesRuleBased retest rules c.content
          then [Ev.ruleCheck c.content, Ev.pullCommentRef c.post c.id, Ev.delComment c.id]
          else [Ev.ruleCheck c.content]) := by
  induction l with
  | nil => intro st; rfl
  | cons c rest ih =>
    intro st
    by_cases h : matchesRuleBased retest rules c.content
    · simp [sweepComments, h, ih]
    · simp [sweepComments, h, ih]

theorem sweep_comments (rules : List String) (retest : RegexOracle)
    (l : List CommentDoc) :
    ∀ (cs : List Community) (us : List UserDoc) (ps : List Post)
      (cms : List CommentDoc) (pend : List PendingPostDoc) (nid ncid : Nat),
    (cms.map (fun x => x.id)).Nodup →
    (sweepComments rules retest l ⟨cs, us, ps, cms, pend, nid, ncid⟩).1.comments
      = cms.filter (fun x =>
          l.all (fun c => !(matchesRuleBased retest rules c.content && x.id == c.id))) := by
  induction l with
  | nil =>
    intro cs us ps cms pend nid ncid _
    simp [sweepComments]
  | cons c rest ih =>
    intro cs us ps cms pend nid ncid hnd
    by_cases h : matchesRuleBased retest rules c.content
    · have hndP : ((removeFirst (fun x : CommentDoc => x.id == c.id) cms).map
          (fun x => x.id)).Nodup :=
        hnd.sublist ((removeFirst_sublist _ cms).map _)
      have h1 : (sweepComments rules retest rest
            ⟨cs, us,
             updateFirst (fun p => p.id == c.post)
               (fun p => { p with comments := p.comments.filter (fun cid => cid != c.id) }) ps,
             removeFirst (fun x => x.id == c.id) cms, pend, nid, ncid⟩).1.comments
          = (removeFirst (fun x : CommentDoc => x.id == c.id) cms).filter
              (fun x => rest.all
                (fun c2 => !(matchesRuleBased retest rules c2.content && x.id == c2.id))) :=
        ih cs us _ _ pend nid ncid hndP
      have h0 : (sweepComments rules retest (c :: rest) ⟨cs, us, ps, cms, pend, nid, ncid⟩).1.comments
          = (sweepComments rules retest rest
              ⟨cs, us,
               updateFirst (fun p => p.id == c.post)
                 (fun p => { p with comments := p.comments.filter (fun cid => cid != c.id) }) ps,
               removeFirst (fun x => x.id == c.id) cms, pend, nid, ncid⟩).1.comments := by
        simp [sweepComments, h]
      rw [h0, h1, removeFirst_eq_filter (fun x : CommentDoc => x.id) c.id cms hnd,
        List.filter_filter]
      apply List.filter_congr
      intro x hx
      simp [h, Bool.and_comm]
    · have h0 : (sweepComments rules retest (c :: rest) ⟨cs, us, ps, cms, pend, nid, ncid⟩).1.comments
          = (sweepComments rules retest rest ⟨cs, us, ps, cms, pend, nid, ncid⟩).1.comments := by
        simp [sweepComments, h]
      rw [h0, ih cs us ps cms pend nid ncid hnd]
      apply List.filter_congr
      intro x hx
      simp [h]

theorem sweepAll_eq_not_match (rules : List String) (retest : RegexOracle)
    (cms : List CommentDoc) (hnd : (cms.map (fun x => x.id)).Nodup)
    (x : CommentDoc) (hx : x ∈ cms) :
    cms.all (fun c => !(matchesRuleBased retest rules c.content && x.id == c.id))
      = !(matchesRuleBased retest rules x.content) := by
  by_cases hm : matchesRuleBased retest rules x.content
  · rw [hm, Bool.not_true]
    refine Bool.eq_false_iff.mpr ?_
    intro hall
    rw [List.all_eq_true] at hall
    have hx2 := hall x hx
    simp [hm] at hx2
  · have hmx : matchesRuleBased retest rules x.content = false := by
      simpa using hm
    rw [hmx, Bool.not_false, List.all_eq_true]
    intro c hc
    by_cases hid : x.id = c.id
    · have hcx : c = x :=
        List.inj_on_of_nodup_map hnd hc hx hid.symm
      rw [hcx, hmx]
      simp
    · simp [hid]

theorem sweep_posts (rules : List String) (retest : RegexOracle) (l : List CommentDoc) :
    ∀ (cs : List Community) (us : List UserDoc) (ps : List Post)
      (cms : List CommentDoc) (pend : List PendingPostDoc) (nid ncid : Nat),
    (ps.map (fun p => p.id)).Nodup →
    (sweepComments rules retest l ⟨cs, us, ps, cms, pend, nid, ncid⟩).1.posts
      = ps.map (fun p => { p with comments := p.comments.filter (fun cid =>
          l.all (fun c => !(matchesRuleBased retest rules c.content
            && p.id == c.post && cid == c.id))) }) := by
  induction l with
  | nil =>
    intro cs us ps cms pend nid ncid _
    simp [sweepComments]
  | cons c rest ih =>
    intro cs us ps cms pend nid ncid hnd
    by_cases h : matchesRuleBased retest rules c.content
    · have hndP : ((updateFirst (fun p => p.id == c.post)
          (fun p => { p with comments := p.comments.filter (fun cid => cid != c.id) }) ps).map
            (fun p => p.id)).Nodup := by
        rw [updateFirst_map_of_id (fun p => p.id == c.post)
          (fun p => { p with comments := p.comments.filter (fun cid => cid != c.id) })
          (fun p => p.id) (fun p => rfl) ps]
        exact hnd
      have h1 : (sweepComments rules retest rest
            ⟨cs, us,
             updateFirst (fun p => p.id == c.post)
               (fun p => { p with comments := p.comments.filter (fun cid => cid != c.id) }) ps,
             removeFirst (fun x => x.id == c.id) cms, pend, nid, ncid⟩).1.posts
          = (updateFirst (fun p => p.id == c.post)
              (fun p => { p with comments := p.comments.filter (fun cid => cid != c.id) }) ps).map
              (fun p => { p with comments := p.comments.filter (fun cid =>
                rest.all (fun c2 => !(matchesRuleBased retest rules c2.content
                  && p.id == c2.post && cid == c2.id))) }) :=
        ih cs us _ _ pend nid ncid hndP
      have h0 : (sweepComments rules retest (c :: rest)
            ⟨cs, us, ps, cms, pend, nid, ncid⟩).1.posts
          = (sweepComments rules retest rest
              ⟨cs, us,
               updateFirst (fun p => p.id == c.post)
                 (fun p => { p with comments := p.comments.filter (fun cid => cid != c.id) }) ps,
               removeFirst (fun x => x.id == c.id) cms, pend, nid, ncid⟩).1.posts := by
        simp [sweepComments, h]
      rw [h0, h1, updateFirst_eq_map (fun p : Post => p.id) c.post
        (fun p => { p with comments := p.comments.filter (fun cid => cid != c.id) }) ps hnd,
        List.map_map]
      apply List.map_congr_left
      intro p hp
      by_cases hpid : p.id = c.post
      · have hif : (if p.id == c.post
            then { p with comments := p.comments.filter (fun cid => cid != c.id) } else p)
            = { p with comments := p.comments.filter (fun cid => cid != c.id) } := by
          simp [hpid]
        simp only [Function.comp, hif, List.filter_filter]
        congr 1
        apply List.filter_congr
        intro cid hcid
        simp [List.all_cons, h, hpid, Bool.and_comm, bne]
      · have hif : (if p.id == c.post
            then { p with comments := p.comments.filter (fun cid => cid != c.id) } else p)
            = p := by
          simp [hpid]
        simp only [Function.comp, hif]
        congr 1
        apply List.filter_congr
        intro cid hcid
        simp [List.all_cons, h, hpid]
    · have h0 : (sweepComments rules retest (c :: rest)
            ⟨cs, us, ps, cms, pend, nid, ncid⟩).1.posts
          = (sweepComments rules retest rest ⟨cs, us, ps, cms, pend, nid, ncid⟩).1.posts := by
        simp [sweepComments, h]
      rw [h0, ih cs us ps cms pend nid ncid hnd]
      apply List.map_congr_left
      intro p hp
      congr 1
      apply List.filter_congr
      intro cid hcid
      simp [List.all_cons, h]

/-- C7: `cleanupOffensiveComments` is permitted only to admin-role actors
(anyone else gets 403 with nothing changed); an admin's sweep applies the rule
matcher — and never the scorer — to every persisted comment (one `ruleCheck`
event per comment), and for each matching comment pulls the comment's id from
its parent post's comment set and then deletes the comment; the reported
count is exactly the number of matching comments, comments matching no rule
survive untouched, and each post keeps exactly its references to surviving
comments. -/
theorem C7_cleanup (rules : List String) (retest : RegexOracle) (st : Store)
    (userId : Nat)
    (hndc : (st.comments.map (fun c => c.id)).Nodup)
    (hndp : (st.posts.map (fun p => p.id)).Nodup) :
    ((st.users.find? (fun u => u.id == userId) = none ∨
      (∃ u, st.users.find? (fun u => u.id == userId) = some u ∧ u.role ≠ "admin")) →
      cleanupOffensiveComments rules retest st userId
        = (⟨403, "Admin access required", none, none⟩, st, 0, [])) ∧
    (∀ u, st.users.find? (fun v => v.id == userId) = some u → u.role = "admin" →
      ((cleanupOffensiveComments rules retest st userId).2.2.1
          = (st.comments.filter (fun c => matchesRuleBased retest rules c.content)).length ∧
       (cleanupOffensiveComments rules retest st userId).1.message
          = "Cleanup complete. Removed "
              ++ toString (st.comments.filter
                  (fun c => matchesRuleBased retest rules c.content)).length
              ++ " offensive comments." ∧
       (cleanupOffensiveComments rules retest st userId).2.1.comments
          = st.comments.filter (fun c => !(matchesRuleBased retest rules c.content)) ∧
       (cleanupOffensiveComments rules retest st userId).2.1.posts
          = st.posts.map (fun p => { p with comments := p.comments.filter (fun cid =>
              st.comments.all (fun c => !(matchesRuleBased retest rules c.content
                && p.id == c.post && cid == c.id))) }) ∧
       (cleanupOffensiveComments rules retest st userId).2.2.2
          = st.comments.flatMap (fun c => if matchesRuleBased retest rules c.content
              then [Ev.ruleCheck c.content, Ev.pullCommentRef c.post c.id, Ev.delComment c.id]
              else [Ev.ruleCheck c.content]) ∧
       (∀ s, Ev.scorerCall s ∉ (cleanupOffensiveComments rules retest st userId).2.2.2))) := by
  constructor
  · intro hgate
    rcases hgate with hnone | ⟨u, hu, hrole⟩
    · simp [cleanupOffensiveComments, hnone]
    · simp [cleanupOffensiveComments, hu, hrole]
  · intro u hu hrole
    obtain ⟨cs, us, ps, cms, pend, nid, ncid⟩ := st
    dsimp only at hu hndc hndp
    have hred : cleanupOffensiveComments rules retest ⟨cs, us, ps, cms, pend, nid, ncid⟩ userId
        = (⟨200, "Cleanup complete. Removed "
              ++ toString (sweepComments rules retest cms ⟨cs, us, ps, cms, pend, nid, ncid⟩).2.1
              ++ " offensive comments.", none, none⟩,
           (sweepComments rules retest cms ⟨cs, us, ps, cms, pend, nid, ncid⟩).1,
           (sweepComments rules retest cms ⟨cs, us, ps, cms, pend, nid, ncid⟩).2.1,
           (sweepComments rules retest cms ⟨cs, us, ps, cms, pend, nid, ncid⟩).2.2) := by
      simp [cleanupOffensiveComments, hu, hrole]
    rw [hred]
    refine ⟨?_, ?_, ?_, ?_, ?_, ?_⟩
    · exact sweep_count rules retest cms _
    · rw [sweep_count rules retest cms]
    · rw [sweep_comments rules retest cms cs us ps cms pend nid ncid hndc]
      apply List.filter_congr
      intro x hx
      exact sweepAll_eq_not_match rules retest cms hndc x hx
    · exact sweep_posts rules retest cms cs us ps cms pend nid ncid hndp
    · exact sweep_trace rules retest cms _
    · intro s hs
      rw [sweep_trace rules retest cms] at hs
      rw [List.mem_flatMap] at hs
      obtain ⟨c2, hc2, hmem⟩ := hs
      by_cases hm : matchesRuleBased retest rules c2.content
      · simp [hm] at hmem
      · simp [hm] at hmem

/-- Witness for C7 (the spec's scenario): of two comments, exactly the one
matching the rule is removed from the comment store and from its parent
post's comment set; the count is 1 and no scorer call occurs. -/
theorem C7_cleanup_witness :
    (cleanupOffensiveComments ["spam"] (fun _ _ _ => Except.ok false)
        ⟨[], [⟨1, "admin"⟩], [⟨10, 2, 3, none, none, none, [100, 101]⟩],
         [⟨100, 2, 10, some "spam here"⟩, ⟨101, 2, 10, some "all good"⟩],
         [], 0, 0⟩ 1).2.2.1 = 1 ∧
    (cleanupOffensiveComments ["spam"] (fun _ _ _ => Except.ok false)
        ⟨[], [⟨1, "admin"⟩], [⟨10, 2, 3, none, none, none, [100, 101]⟩],
         [⟨100, 2, 10, some "spam here"⟩, ⟨101, 2, 10, some "all good"⟩],
         [], 0, 0⟩ 1).2.1.comments = [⟨101, 2, 10, some "all good"⟩] ∧
    (cleanupOffensiveComments ["spam"] (fun _ _ _ => Except.ok false)
        ⟨[], [⟨1, "admin"⟩], [⟨10, 2, 3, none, none, none, [100, 101]⟩],
         [⟨100, 2, 10, some "spam here"⟩, ⟨101, 2, 10, some "all good"⟩],
         [], 0, 0⟩ 1).2.1.posts = [⟨10, 2, 3, none, none, none, [101]⟩] ∧
    (∀ s, Ev.scorerCall s ∉ (cleanupOffensiveComments ["spam"] (fun _ _ _ => Except.ok false)
        ⟨[], [⟨1, "admin"⟩], [⟨10, 2, 3, none, none, none, [100, 101]⟩],
         [⟨100, 2, 10, some "spam here"⟩, ⟨101, 2, 10, some "all good"⟩],
         [], 0, 0⟩ 1).2.2.2) := by
  have h := (C7_cleanup ["spam"] (fun _ _ _ => Except.ok false)
      ⟨[], [⟨1, "admin"⟩], [⟨10, 2, 3, none, none, none, [100, 101]⟩],
       [⟨100, 2, 10, some "spam here"⟩, ⟨101, 2, 10, some "all good"⟩],
       [], 0, 0⟩ 1 (by decide) (by decide)).2 ⟨1, "admin"⟩ rfl rfl
  refine ⟨?_, ?_, ?_, h.2.2.2.2.2⟩
  · rw [h.1]
    decide
  · rw [h.2.2.1]
    decide
  · rw [h.2.2.2.1]
    decide

/-- Witness for C8: a moderator's expiry run deletes exactly the record at or
before the cutoff, and a second run with the same `now` changes nothing. -/
theorem C8_expire_witness :
    (clearPendingPosts
        ⟨[], [⟨9, "moderator"⟩], [], [],
         [⟨"a", 1, 1, none, none, none, "pending", 0⟩,
          ⟨"b", 2, 1, none, none, none, "pending", 3900000⟩], 0, 0⟩ 9 4000000).2.pendingPosts
      = [⟨"b", 2, 1, none, none, none, "pending", 3900000⟩] ∧
    clearPendingPosts
        (clearPendingPosts
          ⟨[], [⟨9, "moderator"⟩], [], [],
           [⟨"a", 1, 1, none, none, none, "pending", 0⟩,
            ⟨"b", 2, 1, none, none, none, "pending", 3900000⟩], 0, 0⟩ 9 4000000).2 9 4000000
      = (⟨200, "Pending posts cleared", none, none⟩,
         (clearPendingPosts
           ⟨[], [⟨9, "moderator"⟩], [], [],
            [⟨"a", 1, 1, none, none, none, "pending", 0⟩,
             ⟨"b", 2, 1, none, none, none, "pending", 3900000⟩], 0, 0⟩ 9 4000000).2) := by
  have h := (C8_expire
      ⟨[], [⟨9, "moderator"⟩], [], [],
       [⟨"a", 1, 1, none, none, none, "pending", 0⟩,
        ⟨"b", 2, 1, none, none, none, "pending", 3900000⟩], 0, 0⟩ 9 4000000
      ⟨9, "moderator"⟩ rfl).2 rfl
  refine ⟨?_, h.2.2.2.2⟩
  rw [h.2.1]
  decide
